import Mathlib

/-!
Shallow embedding of the reactive-state runtime (the ComponentSystem class of
src/artifacts/generic-type/v1/factory.ts) and proofs about its claims.

Modelling conventions:
* Values flowing through reactives are modelled as integers (the source uses
  untyped values; the claims only need a concrete value type).
* JS Maps become association lists with Map.set semantics (replace in place,
  else append); JS Sets of ids become duplicate-free id lists.
* Asynchronous execution is sequentialised: the spec's concurrency model is a
  single logical thread with cooperative suspension, so each await is modelled
  as an ordinary call.  Promise.all over operations runs them in order and
  reports the first rejection, keeping the state effects of every operation.
* The mutually recursive set / updateReactiveValue / notifyDependents calls can
  diverge on dependency cycles, so they take a fuel parameter; exhausted fuel
  is reported as the distinguished outcome spin (divergence).
* Date-valued metadata (created, lastUpdated) and the asyncTimeout / devTools
  options are not modelled: no claim mentions real time or the devtools hook.
* Plugin and middleware hooks are modelled as pure Lean functions that may
  fail; every engine-side hook invocation is recorded in an event log so that
  claims about which hooks ran (and how often) are expressible.
-/

namespace SweetTooth

abbrev Value := Int

abbrev Id := String

/-- Failures raised during engine operations.  unsupportedSet models the
TypeError of invoking the absent mutator of a read-only reactive (the failure
class the specification taxonomy names Unsupported); userErr models an error
thrown by user-supplied plugin, middleware, or batch-operation code. -/
inductive Err where
  | unsupportedSet : Err
  | userErr : String → Err
deriving DecidableEq, Repr

/-- the status field of reactive metadata -/
inductive Status where
  | idle | loading | error | success
deriving DecidableEq, Repr

/-- reactive metadata (ReactiveMetadata in the source); the Date fields and the
custom record are omitted as no claim mentions them -/
structure Meta where
  type : String
  updateCount : Nat
  status : Status
  error : Option Err
deriving DecidableEq, Repr

/-- a reactive graph node (Reactive<T> in the source).  The value closure is
modelled as a plain field; hasSet records whether the optional mutator is
present (the source installs it exactly when config.type is not "readonly"). -/
structure Reactive where
  id : Id
  value : Value
  hasSet : Bool
  meta : Meta
  dependencies : List Id
  dependents : List Id
deriving DecidableEq, Repr

/-- observable engine actions, recorded in the order they happen -/
inductive Event where
  | hookRun : String → String → Event
  | middlewareRun : String → String → Event
  | commitEv : Id → Value → Event
  | recommit : Id → Event
  | subscriberCall : Id → Nat → Value → Event
deriving DecidableEq, Repr

/-- system options (the asyncTimeout and devTools options are never read by the
modelled engine paths) -/
structure Options where
  enableHistory : Bool
  historySize : Nat
  batchUpdates : Bool
deriving DecidableEq, Repr

/-- creation configuration (ReactiveConfig<T> in the source) -/
structure ReactiveConfig where
  id : Option Id
  type : String
  initialValue : Value
  dependencies : List Id
deriving DecidableEq, Repr

/-- the context argument the engine passes to plugin handleError hooks -/
structure HandleCtx where
  phase : String
  cfgType : String
deriving DecidableEq, Repr

/-- a plugin: optional lifecycle hooks as pure fallible functions.  The
initialization hook is not modelled (no claim mentions it).  The source threads
the previous hook's return value even through void hooks; for the void hooks
modelled here each plugin receives the original argument, which no claim can
observe. -/
structure Plugin where
  name : String
  beforeCreate : Option (ReactiveConfig → Except Err ReactiveConfig)
  afterCreate : Option (Reactive → Except Err Unit)
  beforeUpdate : Option (Value → Value → Except Err Value)
  afterUpdate : Option (Value → Except Err Unit)
  beforeDestroy : Option (Reactive → Except Err Unit)
  handleError : Option (Err → HandleCtx → Except Err Unit)

/-- middleware: optional before/after transforms and an error handler.  The
context argument of the source handlers (reactive, phase, timestamp, meta) is
not threaded; no claim involves a middleware that reads it. -/
structure Middleware where
  name : String
  before : Option (Value → Except Err Value)
  after : Option (Value → Except Err Value)
  error : Option (Err → Except Err Unit)

/-- the immutable part of a constructed system: registered plugins, the
middleware chain, and resolved options -/
structure SysCfg where
  plugins : List Plugin
  middleware : List Middleware
  opts : Options

/-- the mutable state of a ComponentSystem instance, together with the event
log and a counter backing fresh-id generation -/
structure SystemState where
  reactives : List (Id × Reactive)
  history : List (Id × List Value)
  batchQueue : List (Id × Value)
  subscriptions : List (Id × List Nat)
  events : List Event
  nextId : Nat

/-- outcome of an engine operation: success, rejection, or divergence (out of
fuel) -/
inductive Res (α : Type) where
  | ok : α → Res α
  | err : Err → Res α
  | spin : Res α
deriving DecidableEq, Repr

/-- Map.get of a JS Map modelled as an association list -/
def alGet {α : Type} (m : List (Id × α)) (k : Id) : Option α :=
  (m.find? (fun p => p.1 == k)).map (fun p => p.2)

/-- Map.set semantics: replace the entry in place when the key is present,
otherwise append -/
def alSet {α : Type} (m : List (Id × α)) (k : Id) (v : α) : List (Id × α) :=
  if m.any (fun p => p.1 == k) then
    m.map (fun p => if p.1 == k then (k, v) else p)
  else
    m ++ [(k, v)]

/-- Map.delete semantics -/
def alDelete {α : Type} (m : List (Id × α)) (k : Id) : List (Id × α) :=
  m.filter (fun p => p.1 != k)

/-- update the entry at a key in place when present -/
def alModify {α : Type} (m : List (Id × α)) (k : Id) (f : α → α) :
    List (Id × α) :=
  m.map (fun p => if p.1 == k then (k, f p.2) else p)

/-- append an event to the log -/
def logEv (st : SystemState) (e : Event) : SystemState :=
  { st with events := st.events ++ [e] }

/-- current value of a registered reactive -/
def valueOf (st : SystemState) (rid : Id) : Option Value :=
  (alGet st.reactives rid).map (fun r => r.value)

/-- history log of a reactive (empty when none recorded) -/
def historyOf (st : SystemState) (rid : Id) : List Value :=
  (alGet st.history rid).getD []

/-- the dependents list of a registered reactive (empty when absent, matching
the optional chaining in the source walk) -/
def depsOf (st : SystemState) (rid : Id) : List Id :=
  (alGet st.reactives rid).map (fun r => r.dependents) |>.getD []

/-- runPluginHook "beforeCreate": left fold over plugins in registration
order, skipping absent hooks, threading the config; a throwing hook aborts the
fold and the error propagates -/
def runBeforeCreate (ps : List Plugin) (st : SystemState)
    (c : ReactiveConfig) : SystemState × Except Err ReactiveConfig :=
  match ps with
  | [] => (st, .ok c)
  | p :: rest =>
    match p.beforeCreate with
    | none => runBeforeCreate rest st c
    | some f =>
      let st := logEv st (.hookRun p.name "beforeCreate")
      match f c with
      | .ok c2 => runBeforeCreate rest st c2
      | .error e => (st, .error e)

/-- runPluginHook "afterCreate" -/
def runAfterCreate (ps : List Plugin) (st : SystemState) (r : Reactive) :
    SystemState × Except Err Unit :=
  match ps with
  | [] => (st, .ok ())
  | p :: rest =>
    match p.afterCreate with
    | none => runAfterCreate rest st r
    | some f =>
      let st := logEv st (.hookRun p.name "afterCreate")
      match f r with
      | .ok _ => runAfterCreate rest st r
      | .error e => (st, .error e)

/-- runPluginHook "beforeUpdate": threads the proposed value, passing the old
value as the extra argument -/
def runBeforeUpdate (ps : List Plugin) (st : SystemState)
    (v old : Value) : SystemState × Except Err Value :=
  match ps with
  | [] => (st, .ok v)
  | p :: rest =>
    match p.beforeUpdate with
    | none => runBeforeUpdate rest st v old
    | some f =>
      let st := logEv st (.hookRun p.name "beforeUpdate")
      match f v old with
      | .ok v2 => runBeforeUpdate rest st v2 old
      | .error e => (st, .error e)

/-- runPluginHook "afterUpdate" -/
def runAfterUpdate (ps : List Plugin) (st : SystemState) (v : Value) :
    SystemState × Except Err Unit :=
  match ps with
  | [] => (st, .ok ())
  | p :: rest =>
    match p.afterUpdate with
    | none => runAfterUpdate rest st v
    | some f =>
      let st := logEv st (.hookRun p.name "afterUpdate")
      match f v with
      | .ok _ => runAfterUpdate rest st v
      | .error e => (st, .error e)

/-- runPluginHook "beforeDestroy" -/
def runBeforeDestroy (ps : List Plugin) (st : SystemState) (r : Reactive) :
    SystemState × Except Err Unit :=
  match ps with
  | [] => (st, .ok ())
  | p :: rest =>
    match p.beforeDestroy with
    | none => runBeforeDestroy rest st r
    | some f =>
      let st := logEv st (.hookRun p.name "beforeDestroy")
      match f r with
      | .ok _ => runBeforeDestroy rest st r
      | .error e => (st, .error e)

/-- the before or after middleware chain (runMiddleware in the source): each
registered middleware with a handler for the phase transforms the value in
order; a throwing handler aborts the chain -/
def runMwPhase (mws : List Middleware) (isBefore : Bool) (st : SystemState)
    (v : Value) : SystemState × Except Err Value :=
  match mws with
  | [] => (st, .ok v)
  | m :: rest =>
    match (if isBefore then m.before else m.after) with
    | none => runMwPhase rest isBefore st v
    | some f =>
      let st := logEv st
        (.middlewareRun m.name (if isBefore then "before" else "after"))
      match f v with
      | .ok v2 => runMwPhase rest isBefore st v2
      | .error e => (st, .error e)

/-- the plugin loop inside the private handleError method: each plugin's
handleError hook is awaited in registration order with no surrounding
try/catch, so a throwing handler aborts the loop and its error escapes
(returned as some) -/
def handleErrorPlugins (ps : List Plugin) (st : SystemState) (e : Err)
    (ctx : HandleCtx) : SystemState × Option Err :=
  match ps with
  | [] => (st, none)
  | p :: rest =>
    match p.handleError with
    | none => handleErrorPlugins rest st e ctx
    | some f =>
      let st := logEv st (.hookRun p.name "handleError")
      match f e ctx with
      | .ok _ => handleErrorPlugins rest st e ctx
      | .error e2 => (st, some e2)

/-- the middleware error loop inside handleError, same unguarded shape -/
def handleErrorMw (mws : List Middleware) (st : SystemState) (e : Err) :
    SystemState × Option Err :=
  match mws with
  | [] => (st, none)
  | m :: rest =>
    match m.error with
    | none => handleErrorMw rest st e
    | some f =>
      let st := logEv st (.middlewareRun m.name "error")
      match f e with
      | .ok _ => handleErrorMw rest st e
      | .error e2 => (st, some e2)

/-- the metadata marking at the top of the private handleError method: set the
reactive's status to error and record the failure -/
def markError (e : Err) (st : SystemState) (rid : Id) : SystemState :=
  let mark : Reactive → Reactive := fun r =>
    { r with meta := { r.meta with status := .error, error := some e } }
  { st with reactives := alModify st.reactives rid mark }

/-- the context object handleError passes to plugin hooks (phase and the
reactive's type tag) -/
def errCtx (st : SystemState) (rid : Id) (phase : String) : HandleCtx :=
  { phase := phase,
    cfgType := ((alGet st.reactives rid).map (fun r => r.meta.type)).getD "" }

/-- the private handleError method: mark the reactive's metadata with the
failure, run every plugin's handleError hook, then every middleware error
handler, then rethrow the original error.  A hook's own failure escapes
immediately, skipping the remaining handlers and the rethrow. -/
def handleErrorProc (cfg : SysCfg) (st : SystemState) (rid : Id) (e : Err)
    (phase : String) : SystemState × Res Unit :=
  match handleErrorPlugins cfg.plugins (markError e st rid) e
      (errCtx (markError e st rid) rid phase) with
  | (st, some e2) => (st, .err e2)
  | (st, none) =>
    match handleErrorMw cfg.middleware st e with
    | (st, some e2) => (st, .err e2)
    | (st, none) => (st, .err e)

/-- the bounded-FIFO push of updateHistory: append, then drop the oldest entry
once the log exceeds the size bound -/
def pushHistory (histSize : Nat) (h : List Value) (v : Value) : List Value :=
  let h2 := h ++ [v]
  if h2.length > histSize then h2.drop 1 else h2

/-- the private updateHistory method: ensure a log exists for the id, then push
the prior value with the FIFO bound -/
def updateHistoryS (cfg : SysCfg) (st : SystemState) (rid : Id) (v : Value) :
    SystemState :=
  let cur := (alGet st.history rid).getD []
  let h2 := pushHistory cfg.opts.historySize cur v
  { st with history := alSet st.history rid h2 }

/-- write the committed value and bump the metadata, as the assignment block of
updateReactiveValue does (value closure replaced, updateCount incremented) -/
def commitValue (st : SystemState) (rid : Id) (v : Value) : SystemState :=
  let upd : Reactive → Reactive := fun r =>
    { r with value := v,
             meta := { r.meta with updateCount := r.meta.updateCount + 1 } }
  logEv { st with reactives := alModify st.reactives rid upd }
    (.commitEv rid v)

mutual

/-- the set closure installed by createReactive on non-readonly reactives: run
the before middleware, commit through updateReactiveValue, run the after
middleware; any failure is routed through handleErrorProc, which marks the
metadata, runs the error hooks, and rethrows.  Fuel is consumed at every
nested call so that the mutual recursion is structural on it; exhausted fuel
models divergence (which the source exhibits on dependency cycles). -/
def setBody (cfg : SysCfg) (fuel : Nat) (st : SystemState) (rid : Id)
    (newValue : Value) : SystemState × Res Unit :=
  match fuel with
  | 0 => (st, .spin)
  | fuel + 1 =>
    match runMwPhase cfg.middleware true st newValue with
    | (st, .error e) => handleErrorProc cfg st rid e "update"
    | (st, .ok processed) =>
      match updateRV cfg fuel st rid processed with
      | (st, .err e) => handleErrorProc cfg st rid e "update"
      | (st, .spin) => (st, .spin)
      | (st, .ok _) =>
        let cur := ((alGet st.reactives rid).map (fun r => r.value)).getD 0
        match runMwPhase cfg.middleware false st cur with
        | (st, .error e) => handleErrorProc cfg st rid e "update"
        | (st, .ok _) => (st, .ok ())

/-- updateReactiveValue: defer into the batch queue when batching is enabled
and the queue is non-empty; otherwise run the beforeUpdate hooks, assign the
value, record history, walk the dependents, and run the afterUpdate hooks -/
def updateRV (cfg : SysCfg) (fuel : Nat) (st : SystemState) (rid : Id)
    (newValue : Value) : SystemState × Res Unit :=
  match fuel with
  | 0 => (st, .spin)
  | fuel + 1 =>
    if cfg.opts.batchUpdates ∧ st.batchQueue.length > 0 then
      ({ st with batchQueue := alSet st.batchQueue rid newValue }, .ok ())
    else
      let oldValue := ((alGet st.reactives rid).map (fun r => r.value)).getD 0
      match runBeforeUpdate cfg.plugins st newValue oldValue with
      | (st, .error e) => (st, .err e)
      | (st, .ok processed) =>
        let st := commitValue st rid processed
        let st := if cfg.opts.enableHistory
                  then updateHistoryS cfg st rid oldValue else st
        match notifyLoop cfg fuel st [] (depsOf st rid) with
        | (st, .err e) => (st, .err e)
        | (st, .spin) => (st, .spin)
        | (st, .ok _) =>
          match runAfterUpdate cfg.plugins st processed with
          | (st, .error e) => (st, .err e)
          | (st, .ok _) => (st, .ok ())

/-- the while loop of notifyDependents: pop an id, skip it when already
visited, otherwise mark it visited, recommit it through its own set when it
has one (a rejection escapes the loop), and enqueue its dependents -/
def notifyLoop (cfg : SysCfg) (fuel : Nat) (st : SystemState)
    (visited : List Id) (queue : List Id) : SystemState × Res Unit :=
  match queue with
  | [] => (st, .ok ())
  | dId :: rest =>
    match fuel with
    | 0 => (st, .spin)
    | fuel + 1 =>
      if dId ∈ visited then
        notifyLoop cfg fuel st visited rest
      else
        let visited := dId :: visited
        match alGet st.reactives dId with
        | none => notifyLoop cfg fuel st visited rest
        | some dep =>
          if dep.hasSet then
            let st := logEv st (.recommit dId)
            match setBody cfg fuel st dId dep.value with
            | (st, .err e) => (st, .err e)
            | (st, .spin) => (st, .spin)
            | (st, .ok _) =>
              notifyLoop cfg fuel st visited (rest ++ dep.dependents)
          else
            notifyLoop cfg fuel st visited (rest ++ dep.dependents)

end

/-- deterministic stand-in for crypto.randomUUID, backed by the state counter -/
def genId (n : Nat) : Id := "uuid-" ++ toString n

/-- registerReactive: Map.set into the registry — an existing entry under the
same id is silently replaced -/
def registerReactive (st : SystemState) (r : Reactive) : SystemState :=
  { st with reactives := alSet st.reactives r.id r }

/-- the private createReactive method: build the node (the mutator is present
exactly when the type tag differs from "readonly"; the dependents set starts
empty and the dependencies of the new node are never written into other nodes'
dependents) and register it.  An explicit empty-string id is falsy in the
source's id defaulting, so it is replaced by a generated id. -/
def createReactive (st : SystemState) (config : ReactiveConfig) :
    SystemState × Reactive :=
  let genFresh := config.id.isNone ∨ config.id = some ""
  let rid := match config.id with
    | some i => if i = "" then genId st.nextId else i
    | none => genId st.nextId
  let st := if genFresh then { st with nextId := st.nextId + 1 } else st
  let r : Reactive :=
    { id := rid,
      value := config.initialValue,
      hasSet := config.type ≠ "readonly",
      meta := { type := config.type, updateCount := 0,
                status := .idle, error := none },
      dependencies := config.dependencies,
      dependents := [] }
  (registerReactive st r, r)

/-- the public create method: beforeCreate hooks transform the config, the
node is built and registered, then the afterCreate hooks run; a hook failure
rejects the call (after registration, in the afterCreate case) -/
def create (cfg : SysCfg) (st : SystemState) (config : ReactiveConfig) :
    SystemState × Res Reactive :=
  match runBeforeCreate cfg.plugins st config with
  | (st, .error e) => (st, .err e)
  | (st, .ok pc) =>
    let (st, r) := createReactive st pc
    match runAfterCreate cfg.plugins st r with
    | (st, .error e) => (st, .err e)
    | (st, .ok _) => (st, .ok r)

/-- removeReactive: when the id is registered, fire the beforeDestroy hooks
(the source does not await them and their outcome does not block removal),
then delete the entity, its history, and its subscriber set -/
def removeReactive (cfg : SysCfg) (st : SystemState) (rid : Id) :
    SystemState :=
  match alGet st.reactives rid with
  | none => st
  | some r =>
    let (st, _) := runBeforeDestroy cfg.plugins st r
    { st with reactives := alDelete st.reactives rid,
              history := alDelete st.history rid,
              subscriptions := alDelete st.subscriptions rid }

/-- subscribe: add the callback (identified by a token) to the id's subscriber
set, creating the set when absent -/
def subscribe (st : SystemState) (rid : Id) (cb : Nat) : SystemState :=
  let cur := (alGet st.subscriptions rid).getD []
  let cur2 := if cb ∈ cur then cur else cur ++ [cb]
  { st with subscriptions := alSet st.subscriptions rid cur2 }

/-- the unsubscribe capability returned by subscribe: delete the callback from
the id's subscriber set -/
def unsubscribeCb (st : SystemState) (rid : Id) (cb : Nat) : SystemState :=
  let del : List Nat → List Nat := fun cur => cur.filter (fun c => c ≠ cb)
  { st with subscriptions := alModify st.subscriptions rid del }

/-- a caller invoking set on a held reactive handle: when the mutator is
present this is the set closure; when it is absent (read-only entity) the call
fails immediately — in the source, invoking the absent function throws — with
the failure class the spec names Unsupported, and the state is untouched -/
def attemptSet (cfg : SysCfg) (fuel : Nat) (st : SystemState) (rid : Id)
    (v : Value) : SystemState × Res Unit :=
  match alGet st.reactives rid with
  | some r =>
    if r.hasSet then setBody cfg fuel st rid v
    else (st, .err .unsupportedSet)
  | none => (st, .err .unsupportedSet)

/-- a zero-argument async operation handed to batch -/
abbrev BatchOp := Nat → SystemState → SystemState × Res Unit

/-- combine two operation outcomes the way Promise.all does: the first
rejection wins; a never-settling operation makes the whole thing never settle
unless some operation rejects -/
def resSeq : Res Unit → Res Unit → Res Unit
  | .err e, _ => .err e
  | .spin, .err e => .err e
  | .spin, _ => .spin
  | .ok _, r => r

/-- Promise.all over the supplied operations: every operation is started (its
state effects happen), sequentialised in order per the cooperative scheduling
model, and the first rejection is reported -/
def runOps (fuel : Nat) (ops : List BatchOp) (st : SystemState) :
    SystemState × Res Unit :=
  match ops with
  | [] => (st, .ok ())
  | op :: rest =>
    let (st, r1) := op fuel st
    let (st, r2) := runOps fuel rest st
    (st, resSeq r1 r2)

/-- one flush step: getReactive(id)?.set?.(value) — missing id or absent
mutator is a silent no-op through the optional chaining -/
def flushOne (cfg : SysCfg) (fuel : Nat) (st : SystemState)
    (u : Id × Value) : SystemState × Res Unit :=
  match alGet st.reactives u.1 with
  | some r =>
    if r.hasSet then setBody cfg fuel st u.1 u.2 else (st, .ok ())
  | none => (st, .ok ())

/-- Promise.all over the flush of all recorded pending updates -/
def flushUpdates (cfg : SysCfg) (fuel : Nat) (st : SystemState)
    (updates : List (Id × Value)) : SystemState × Res Unit :=
  match updates with
  | [] => (st, .ok ())
  | u :: rest =>
    let (st, r1) := flushOne cfg fuel st u
    let (st, r2) := flushUpdates cfg fuel st rest
    (st, resSeq r1 r2)

/-- the public batch method: run all operations; on overall success take the
recorded pending updates, clear the queue, and flush each through the real
commit path; on failure reject without flushing (and without clearing the
queue, as the clearing lives in the skipped continuation) -/
def batch (cfg : SysCfg) (fuel : Nat) (st : SystemState)
    (ops : List BatchOp) : SystemState × Res Unit :=
  match runOps fuel ops st with
  | (st, .ok _) =>
    let updates := st.batchQueue
    let st := { st with batchQueue := [] }
    flushUpdates cfg fuel st updates
  | (st, r) => (st, r)

/-- Visit order of the notifyDependents while loop over the dependents
topology g, which no recommit mutates during the pass (updateReactiveValue
never writes dependency or dependent edges): pop an id, skip it when already
visited, otherwise record it and enqueue its dependents.  The returned list is
exactly the sequence of ids the loop processes (recommits when they have a
mutator). -/
def passVisits (g : Id → List Id) : Nat → List Id → List Id → List Id
  | _, _, [] => []
  | 0, _, _ :: _ => []
  | fuel + 1, visited, dId :: rest =>
    if dId ∈ visited then passVisits g fuel visited rest
    else dId :: passVisits g fuel (dId :: visited) (rest ++ g dId)

/-- number of occurrences of an event in the log -/
def countEv (st : SystemState) (e : Event) : Nat := st.events.count e

/-- the committed values recorded for one reactive, in commit order -/
def commitsTo (evts : List Event) (rid : Id) : List Value :=
  evts.filterMap (fun ev => match ev with
    | .commitEv i v => if i = rid then some v else none
    | _ => none)

/-- a fresh system state, as the constructor leaves it -/
def emptyState : SystemState :=
  { reactives := [], history := [], batchQueue := [],
    subscriptions := [], events := [], nextId := 0 }

/-- the documented option defaults -/
def defaultOptions : Options :=
  { enableHistory := false, historySize := 10, batchUpdates := false }

/-- a system constructed with no plugins and no middleware -/
def plainCfg (o : Options) : SysCfg :=
  { plugins := [], middleware := [], opts := o }

/-- a creation config with an explicit id -/
def mkConf (i : Id) (ty : String) (v : Value) (deps : List Id) :
    ReactiveConfig :=
  { id := some i, type := ty, initialValue := v, dependencies := deps }

/-- the subscriber-invocation events in a log (the engine has no code path
that emits one) -/
def subscriberEvents (evts : List Event) : List Event :=
  evts.filter (fun e => match e with
    | .subscriberCall _ _ _ => true
    | _ => false)

/-- the names of plugins whose handleError hook was invoked, in order -/
def handleErrorRuns (evts : List Event) : List String :=
  evts.filterMap (fun e => match e with
    | .hookRun n "handleError" => some n
    | _ => none)

/-- the names of plugins whose beforeDestroy hook was invoked, in order -/
def beforeDestroyRuns (evts : List Event) : List String :=
  evts.filterMap (fun e => match e with
    | .hookRun n "beforeDestroy" => some n
    | _ => none)

/-!
Concrete fixtures used by the concrete-input theorems below.
-/

/-- a plain system with the documented default options -/
def cfg0 : SysCfg := plainCfg defaultOptions

/-- state after creating reactive A with no dependencies -/
def stA : SystemState := (create cfg0 emptyState (mkConf "A" "state" 0 [])).1

/-- state after additionally creating reactive R depending on A -/
def stR : SystemState := (create cfg0 stA (mkConf "R" "state" 0 ["A"])).1

/-- options with batching and history enabled -/
def optsB : Options :=
  { enableHistory := true, historySize := 10, batchUpdates := true }

/-- a batching system with no plugins or middleware -/
def cfgB : SysCfg := plainCfg optsB

/-- batching system state holding reactive X with value 0 -/
def stX : SystemState := (create cfgB emptyState (mkConf "X" "state" 0 [])).1

/-- a batch operation that calls set on a reactive, as the operations in the
source example do -/
def opSet (i : Id) (v : Value) : BatchOp :=
  fun fuel st => setBody cfgB fuel st i v

/-- a batch operation that rejects -/
def opFail (e : Err) : BatchOp := fun _ st => (st, .err e)

/-- a mutable node with an explicit dependents list, as a plugin may register
through registerReactive -/
def mkNode (i : Id) (deps : List Id) : Reactive :=
  { id := i, value := 0, hasSet := true,
    meta := { type := "state", updateCount := 0, status := .idle,
              error := none },
    dependencies := [], dependents := deps }

/-- a registry forming the dependency cycle A to B to C and back to A -/
def stCyc : SystemState :=
  { emptyState with reactives :=
      [("A", mkNode "A" ["B"]), ("B", mkNode "B" ["C"]),
       ("C", mkNode "C" ["A"])] }

/-- the dependents topology of that cycle -/
def gCyc : Id → List Id := fun i =>
  if i = "A" then ["B"] else if i = "B" then ["C"]
  else if i = "C" then ["A"] else []

/-- status field of a registered reactive -/
def statusOf (st : SystemState) (rid : Id) : Option Status :=
  (alGet st.reactives rid).map (fun r => r.meta.status)

/-- error field of a registered reactive -/
def errorOf (st : SystemState) (rid : Id) : Option (Option Err) :=
  (alGet st.reactives rid).map (fun r => r.meta.error)

/-!
Association-list lemmas.
-/

theorem alGet_alModify {α : Type} (m : List (Id × α)) (k : Id) (f : α → α) :
    alGet (alModify m k f) k = (alGet m k).map f := by
  induction m with
  | nil => rfl
  | cons p t ih =>
    by_cases h : p.1 = k
    · simp [alGet, alModify, List.find?, h]
    · have hb : (p.1 == k) = false := by simp [h]
      simp [alGet, alModify, List.find?, hb] at ih ⊢
      exact ih

theorem alGet_map_set {α : Type} (v : α) (k : Id) :
    ∀ (m : List (Id × α)), m.any (fun p => p.1 == k) = true →
      alGet (m.map (fun p => if p.1 == k then (k, v) else p)) k = some v := by
  intro m
  induction m with
  | nil => intro h; simp at h
  | cons p t ih =>
    intro h
    by_cases hp : p.1 = k
    · simp [alGet, List.find?, hp]
    · have hb : (p.1 == k) = false := by simp [hp]
      simp only [List.any_cons, hb, Bool.false_or] at h
      have ih2 := ih h
      simp [alGet, List.find?, hb] at ih2 ⊢
      exact ih2

theorem alGet_alSet_self {α : Type} (m : List (Id × α)) (k : Id) (v : α) :
    alGet (alSet m k v) k = some v := by
  unfold alSet
  by_cases h : m.any (fun p => p.1 == k) = true
  · simp only [h, if_true]
    exact alGet_map_set v k m h
  · simp only [h, if_false]
    have hnone : m.find? (fun p => p.1 == k) = none := by
      rw [List.find?_eq_none]
      intro x hx
      intro hxk
      exact h (List.any_eq_true.mpr ⟨x, hx, hxk⟩)
    simp [alGet, List.find?_append, hnone, List.find?]

/-!
Claim theorems.
-/

/-- C1: the claim says that after creating R with dependencies = [A] (A being
registered), A's dependents set contains R's id.  Evaluating the engine at
exactly that input shows A's dependents set stays empty: createReactive never
writes the new id into its dependencies' dependents sets. -/
theorem C1_dependents_not_wired :
    (alGet stR.reactives "R").map (fun r => r.dependencies) = some ["A"] ∧
    (alGet stR.reactives "A").map (fun r => r.dependents) = some [] := by
  constructor <;> rfl

/-- C2: the claim says a batch setting X to 1 then 2 produces exactly one
commit (of 2) and one history entry.  Evaluating batch at that input shows
two commits (1 then 2) and two history entries ([0, 1]): the deferral guard
in updateReactiveValue requires a non-empty batch queue, which never occurs,
so both operations commit immediately. -/
theorem C2_batch_commits_twice :
    commitsTo (batch cfgB 5 stX [opSet "X" 1, opSet "X" 2]).1.events "X"
        = [1, 2] ∧
    historyOf (batch cfgB 5 stX [opSet "X" 1, opSet "X" 2]).1 "X" = [0, 1] ∧
    (batch cfgB 5 stX [opSet "X" 1, opSet "X" 2]).2 = .ok () ∧
    (batch cfgB 5 stX [opSet "X" 1, opSet "X" 2]).1.batchQueue = [] := by
  refine ⟨?_, ?_, ?_, ?_⟩ <;> rfl

/-- C3: the claim says a batch containing a rejecting operation leaves every
reactive at its pre-batch value.  Evaluating batch at the input [set X 1,
reject] shows the rejection propagates but X has already been committed to 1
(pre-batch value 0): mutations inside a batch are never actually deferred. -/
theorem C3_batch_abort_incomplete :
    (batch cfgB 5 stX [opSet "X" 1, opFail (.userErr "boom")]).2
        = .err (.userErr "boom") ∧
    valueOf stX "X" = some 0 ∧
    valueOf (batch cfgB 5 stX [opSet "X" 1, opFail (.userErr "boom")]).1 "X"
        = some 1 := by
  refine ⟨?_, ?_, ?_⟩ <;> rfl

/-- C5: the claim says a callback registered through subscribe is invoked on
each successful commit.  Evaluating a successful commit after a subscription
shows the commit succeeds but no subscriber invocation ever happens: no code
path of the engine calls the callbacks held in the subscription table. -/
theorem C5_subscribers_never_invoked :
    alGet (subscribe stX "X" 0).subscriptions "X" = some [0] ∧
    (setBody cfgB 5 (subscribe stX "X" 0) "X" 7).2 = .ok () ∧
    valueOf (setBody cfgB 5 (subscribe stX "X" 0) "X" 7).1 "X" = some 7 ∧
    subscriberEvents (setBody cfgB 5 (subscribe stX "X" 0) "X" 7).1.events
        = [] := by
  refine ⟨?_, ?_, ?_, ?_⟩ <;> rfl

/-- C6 counterexample: in the cycle A to B to C to A, committing A recommits A
itself (the visited set is not seeded with A) and recommits B and C many
times (every recommit starts a nested propagation pass with a fresh visited
set), and the run exhausts any fuel — the claimed at-most-once bound is false
at this input. -/
theorem C6_cycle_recommit_counts :
    countEv (setBody cfg0 12 stCyc "A" 1).1 (.recommit "A") = 1 ∧
    countEv (setBody cfg0 12 stCyc "A" 1).1 (.recommit "B") = 2 ∧
    (setBody cfg0 12 stCyc "A" 1).2 = .spin := by
  refine ⟨?_, ?_, ?_⟩ <;> rfl

/-- every id recorded by a pass is outside the initial visited set, and the
recorded list has no duplicates -/
theorem passVisits_nodup_aux (g : Id → List Id) :
    ∀ (fuel : Nat) (visited queue : List Id),
      (passVisits g fuel visited queue).Nodup ∧
      ∀ x ∈ passVisits g fuel visited queue, x ∉ visited := by
  intro fuel
  induction fuel with
  | zero =>
    intro visited queue
    cases queue <;> simp [passVisits]
  | succ n ih =>
    intro visited queue
    match queue with
    | [] => simp [passVisits]
    | dId :: rest =>
      by_cases h : dId ∈ visited
      · simp only [passVisits, if_pos h]
        exact ih visited rest
      · simp only [passVisits, if_neg h]
        have ihh := ih (dId :: visited) (rest ++ g dId)
        constructor
        · refine List.nodup_cons.mpr ⟨?_, ihh.1⟩
          intro hmem
          exact (ihh.2 dId hmem) (List.mem_cons_self dId visited)
        · intro x hx
          rcases List.mem_cons.mp hx with hxe | hx2
          · exact hxe ▸ h
          · intro hxv
            exact (ihh.2 x hx2) (List.mem_cons_of_mem _ hxv)

/-- C6 amended: the while loop of a single notifyDependents invocation
processes each id at most once (its visit list has no duplicates), but the
committed reactive itself is not exempt — in the cycle the pass started from
A's dependents processes B, C, and then A itself. -/
theorem C6_pass_at_most_once :
    (∀ (g : Id → List Id) (fuel : Nat) (visited queue : List Id),
        (passVisits g fuel visited queue).Nodup) ∧
    passVisits gCyc 10 [] ["B"] = ["B", "C", "A"] := by
  exact ⟨fun g fuel visited queue => (passVisits_nodup_aux g fuel visited queue).1, rfl⟩

/-- C4: a reactive created with the readonly type tag gets no mutator, and an
attempted set call on any mutator-less reactive is rejected with the
Unsupported failure, leaving the state — hence the observable value —
unchanged (a surfaced rejection, not a silent no-op). -/
theorem C4_readonly_set_rejected :
    (∀ (st : SystemState) (config : ReactiveConfig),
        config.type = "readonly" →
        (createReactive st config).2.hasSet = false) ∧
    (∀ (cfg : SysCfg) (fuel : Nat) (st : SystemState) (rid : Id)
        (r : Reactive) (v : Value),
        alGet st.reactives rid = some r → r.hasSet = false →
        attemptSet cfg fuel st rid v = (st, .err .unsupportedSet) ∧
        valueOf (attemptSet cfg fuel st rid v).1 rid = valueOf st rid) := by
  constructor
  · intro st config h
    simp [createReactive, h]
  · intro cfg fuel st rid r v hget hset
    constructor
    · simp [attemptSet, hget, hset]
    · simp [attemptSet, hget, hset]

/-- state holding the read-only reactive K with value 5 -/
def stRO : SystemState :=
  (create cfg0 emptyState (mkConf "K" "readonly" 5 [])).1

/-- the record under which K is registered -/
def rRO : Reactive :=
  { id := "K", value := 5, hasSet := false,
    meta := { type := "readonly", updateCount := 0, status := .idle,
              error := none },
    dependencies := [], dependents := [] }

/-- witness for C4 at the concrete read-only reactive K -/
theorem C4_witness :
    (createReactive emptyState (mkConf "K" "readonly" 5 [])).2.hasSet
        = false ∧
    attemptSet cfg0 5 stRO "K" 9 = (stRO, .err .unsupportedSet) ∧
    valueOf (attemptSet cfg0 5 stRO "K" 9).1 "K" = valueOf stRO "K" := by
  refine ⟨C4_readonly_set_rejected.1 emptyState (mkConf "K" "readonly" 5 [])
            rfl,
          (C4_readonly_set_rejected.2 cfg0 5 stRO "K" rRO 9 rfl rfl).1,
          (C4_readonly_set_rejected.2 cfg0 5 stRO "K" rRO 9 rfl rfl).2⟩

/-- a plugin exposing no hooks at all -/
def bareP (n : String) : Plugin :=
  { name := n, beforeCreate := none, afterCreate := none,
    beforeUpdate := none, afterUpdate := none, beforeDestroy := none,
    handleError := none }

/-- a plugin whose handleError hook itself throws -/
def pThrow : Plugin :=
  { bareP "P1" with handleError := some (fun _ _ => .error (.userErr "p1fail")) }

/-- a plugin whose handleError hook succeeds -/
def pOk : Plugin :=
  { bareP "P2" with handleError := some (fun _ _ => .ok ()) }

/-- two plugins where the first handleError hook throws -/
def cfgC7 : SysCfg :=
  { plugins := [pThrow, pOk], middleware := [], opts := defaultOptions }

/-- C7 counterexample: with plugins P1, P2 registered in that order and P1's
handleError throwing, the engine invokes P1's hook only — P2's handleError is
suppressed, and the hook's own error replaces the original one — because the
plugin loop in handleError has no try/catch around the awaited hook. -/
theorem C7_handleError_short_circuit :
    handleErrorRuns
        (handleErrorProc cfgC7 stA "A" (.userErr "boom") "update").1.events
      = ["P1"] ∧
    (handleErrorProc cfgC7 stA "A" (.userErr "boom") "update").2
      = .err (.userErr "p1fail") := by
  refine ⟨?_, ?_⟩ <;> rfl

/-- a plugin whose afterUpdate hook rejects, failing the commit after the
value has been assigned -/
def pAfterBoom : Plugin :=
  { bareP "PA" with afterUpdate := some (fun _ => .error (.userErr "late")) }

/-- a system whose only plugin fails every afterUpdate -/
def cfgC8 : SysCfg :=
  { plugins := [pAfterBoom], middleware := [], opts := defaultOptions }

/-- that system holding reactive X with value 0 -/
def stC8 : SystemState :=
  (create cfgC8 emptyState (mkConf "X" "state" 0 [])).1

/-- C8 counterexample: when the afterUpdate hook fails, set rejects and marks
the error status, but the reactive's value has already been assigned — value()
returns the new value 5, not the pre-call value 0, contradicting the claimed
no-partial-commit guarantee for failures at any stage. -/
theorem C8_late_failure_partial_commit :
    (setBody cfgC8 5 stC8 "X" 5).2 = .err (.userErr "late") ∧
    valueOf stC8 "X" = some 0 ∧
    valueOf (setBody cfgC8 5 stC8 "X" 5).1 "X" = some 5 ∧
    statusOf (setBody cfgC8 5 stC8 "X" 5).1 "X" = some .error := by
  refine ⟨?_, ?_, ?_, ?_⟩ <;> rfl

/-- names of the plugins exposing a handleError hook, in registration order -/
def heNames (ps : List Plugin) : List String :=
  ps.filterMap (fun p => if p.handleError.isSome then some p.name else none)

theorem handleErrorRuns_append (a b : List Event) :
    handleErrorRuns (a ++ b) = handleErrorRuns a ++ handleErrorRuns b := by
  simp [handleErrorRuns, List.filterMap_append]

/-- when no plugin's handleError hook throws, the loop completes and invokes
exactly the plugins exposing the hook, in registration order -/
theorem handleErrorPlugins_all_ok (e : Err) (ctx : HandleCtx) :
    ∀ (ps : List Plugin) (st : SystemState),
      (∀ p ∈ ps, ∀ f, p.handleError = some f → f e ctx = .ok ()) →
      (handleErrorPlugins ps st e ctx).2 = none ∧
      handleErrorRuns (handleErrorPlugins ps st e ctx).1.events =
        handleErrorRuns st.events ++ heNames ps := by
  intro ps
  induction ps with
  | nil =>
    intro st h
    simp [handleErrorPlugins, heNames]
  | cons p rest ih =>
    intro st h
    have hrest : ∀ q ∈ rest, ∀ f, q.handleError = some f → f e ctx = .ok () :=
      fun q hq => h q (List.mem_cons_of_mem _ hq)
    match hpe : p.handleError with
    | none =>
      have := ih st hrest
      simp only [handleErrorPlugins, hpe, heNames, List.filterMap_cons,
        Option.isSome_none, Bool.false_eq_true, if_false] at this ⊢
      refine ⟨this.1, ?_⟩
      rw [this.2]
    | some f =>
      have hf := h p (List.mem_cons_self p rest) f hpe
      have := ih (logEv st (.hookRun p.name "handleError")) hrest
      simp only [handleErrorPlugins, hpe, hf] at this ⊢
      refine ⟨this.1, ?_⟩
      rw [this.2]
      simp only [logEv, handleErrorRuns_append, heNames, List.filterMap_cons,
        hpe, Option.isSome_some, if_true]
      simp [handleErrorRuns, List.append_assoc]

/-- when no middleware error handler throws, the loop completes; it records no
handleError hook events -/
theorem handleErrorMw_all_ok (e : Err) :
    ∀ (mws : List Middleware) (st : SystemState),
      (∀ m ∈ mws, ∀ f, m.error = some f → f e = .ok ()) →
      (handleErrorMw mws st e).2 = none ∧
      handleErrorRuns (handleErrorMw mws st e).1.events =
        handleErrorRuns st.events := by
  intro mws
  induction mws with
  | nil =>
    intro st h
    simp [handleErrorMw]
  | cons m rest ih =>
    intro st h
    have hrest : ∀ q ∈ rest, ∀ f, q.error = some f → f e = .ok () :=
      fun q hq => h q (List.mem_cons_of_mem _ hq)
    match hme : m.error with
    | none =>
      have := ih st hrest
      simp only [handleErrorMw, hme] at this ⊢
      exact this
    | some f =>
      have hf := h m (List.mem_cons_self m rest) f hme
      have := ih (logEv st (.middlewareRun m.name "error")) hrest
      simp only [handleErrorMw, hme, hf] at this ⊢
      refine ⟨this.1, ?_⟩
      rw [this.2]
      simp [logEv, handleErrorRuns_append, handleErrorRuns]

/-- C7 amended: provided no handler itself throws, the engine invokes the
handleError hook of every registered plugin, in registration order, and then
re-raises the original failure; a throwing handler, however, suppresses the
remaining handlers (see the counterexample). -/
theorem C7_handleError_runs_all_when_none_throw
    (cfg : SysCfg) (st : SystemState) (rid : Id) (e : Err) (phase : String)
    (hp : ∀ p ∈ cfg.plugins, ∀ f, p.handleError = some f →
            ∀ e2 c, f e2 c = .ok ())
    (hm : ∀ m ∈ cfg.middleware, ∀ f, m.error = some f → ∀ e2, f e2 = .ok ()) :
    (handleErrorProc cfg st rid e phase).2 = .err e ∧
    handleErrorRuns (handleErrorProc cfg st rid e phase).1.events =
      handleErrorRuns st.events ++ heNames cfg.plugins := by
  have hplug := handleErrorPlugins_all_ok e (errCtx (markError e st rid) rid
    phase) cfg.plugins (markError e st rid)
    (fun p hpp f hf => hp p hpp f hf e _)
  rcases hP : handleErrorPlugins cfg.plugins (markError e st rid) e
      (errCtx (markError e st rid) rid phase) with ⟨st3, o⟩
  rw [hP] at hplug
  simp only at hplug
  cases o with
  | some e2 => exact absurd hplug.1 (by simp)
  | none =>
    have hmw := handleErrorMw_all_ok e cfg.middleware st3
      (fun m hmm f hf => hm m hmm f hf e)
    rcases hM : handleErrorMw cfg.middleware st3 e with ⟨st4, o2⟩
    rw [hM] at hmw
    simp only at hmw
    cases o2 with
    | some e2 => exact absurd hmw.1 (by simp)
    | none =>
      rw [handleErrorProc, hP]
      dsimp only
      rw [hM]
      dsimp only
      refine ⟨rfl, ?_⟩
      have hev2 : handleErrorRuns (markError e st rid).events =
        handleErrorRuns st.events := rfl
      rw [hmw.2, hplug.2, hev2]

/-- a third plugin whose handleError hook succeeds -/
def pOk3 : Plugin :=
  { bareP "P3" with handleError := some (fun _ _ => .ok ()) }

/-- two plugins, both with throw-free handleError hooks -/
def cfgC7W : SysCfg :=
  { plugins := [pOk, pOk3], middleware := [], opts := defaultOptions }

/-- witness for C7 at a concrete two-plugin system whose handlers never
throw: both handleError hooks run, in order, and the failure is re-raised -/
theorem C7_witness :
    (handleErrorProc cfgC7W stA "A" (.userErr "boom") "update").2
        = .err (.userErr "boom") ∧
    handleErrorRuns
        (handleErrorProc cfgC7W stA "A" (.userErr "boom") "update").1.events
      = ["P2", "P3"] := by
  have h := C7_handleError_runs_all_when_none_throw cfgC7W stA "A"
    (.userErr "boom") "update" ?hp ?hm
  case hp =>
    intro p hpp f hf e2 c
    have hpq : p = pOk ∨ p = pOk3 := by simpa [cfgC7W] using hpp
    rcases hpq with rfl | rfl <;>
      (injection hf with h2; rw [← h2])
  case hm =>
    intro m hmm
    simp [cfgC7W] at hmm
  exact ⟨h.1, h.2.trans (by rfl)⟩

/-- one middleware holding a before transform and an error handler -/
def mw1 (f : Value → Except Err Value) (g : Err → Except Err Unit) :
    Middleware :=
  { name := "m", before := some f, after := none, error := some g }

/-- a system with that single middleware and no plugins -/
def mw1Cfg (opts : Options) (f : Value → Except Err Value)
    (g : Err → Except Err Unit) : SysCfg :=
  { plugins := [], middleware := [mw1 f g], opts := opts }

/-- C8 amended: a failure before the value assignment (here the before
middleware rejecting the proposed value) leaves value() unchanged, sets
meta.status to error and meta.error to the failure, invokes the middleware
error handler, appends no history, and re-raises the failure to the caller; a
failure after the assignment instead leaves the new value committed (see the
counterexample). -/
theorem C8_early_failure_no_commit
    (opts : Options) (fuel : Nat) (st : SystemState) (rid : Id) (r : Reactive)
    (v : Value) (e : Err) (f : Value → Except Err Value)
    (g : Err → Except Err Unit)
    (hget : alGet st.reactives rid = some r)
    (hf : f v = .error e) (hg : g e = .ok ()) :
    (setBody (mw1Cfg opts f g) (fuel + 1) st rid v).2 = .err e ∧
    valueOf (setBody (mw1Cfg opts f g) (fuel + 1) st rid v).1 rid
        = valueOf st rid ∧
    statusOf (setBody (mw1Cfg opts f g) (fuel + 1) st rid v).1 rid
        = some .error ∧
    errorOf (setBody (mw1Cfg opts f g) (fuel + 1) st rid v).1 rid
        = some (some e) ∧
    historyOf (setBody (mw1Cfg opts f g) (fuel + 1) st rid v).1 rid
        = historyOf st rid ∧
    (setBody (mw1Cfg opts f g) (fuel + 1) st rid v).1.events =
      st.events ++ [.middlewareRun "m" "before", .middlewareRun "m" "error"]
    := by
  have hrun : setBody (mw1Cfg opts f g) (fuel + 1) st rid v =
      (logEv (markError e (logEv st (.middlewareRun "m" "before")) rid)
         (.middlewareRun "m" "error"), .err e) := by
    simp [setBody, runMwPhase, mw1Cfg, mw1, hf, hg, handleErrorProc,
      handleErrorPlugins, handleErrorMw]
  rw [hrun]
  refine ⟨rfl, ?_, ?_, ?_, ?_, ?_⟩
  · simp [valueOf, logEv, markError, alGet_alModify, hget]
  · simp [statusOf, logEv, markError, alGet_alModify, hget]
  · simp [errorOf, logEv, markError, alGet_alModify, hget]
  · rfl
  · simp [logEv, markError]

/-- the record under which A is registered in stA -/
def rA : Reactive :=
  { id := "A", value := 0, hasSet := true,
    meta := { type := "state", updateCount := 0, status := .idle,
              error := none },
    dependencies := [], dependents := [] }

/-- witness for C8 at a concrete rejecting before-middleware -/
theorem C8_witness :
    (setBody (mw1Cfg defaultOptions (fun _ => .error (.userErr "bad"))
        (fun _ => .ok ())) 5 stA "A" 7).2 = .err (.userErr "bad") ∧
    valueOf (setBody (mw1Cfg defaultOptions (fun _ => .error (.userErr "bad"))
        (fun _ => .ok ())) 5 stA "A" 7).1 "A" = some 0 ∧
    statusOf (setBody (mw1Cfg defaultOptions
        (fun _ => .error (.userErr "bad"))
        (fun _ => .ok ())) 5 stA "A" 7).1 "A" = some .error := by
  have h := C8_early_failure_no_commit defaultOptions 4 stA "A" rA 7
    (.userErr "bad") (fun _ => .error (.userErr "bad")) (fun _ => .ok ())
    rfl rfl rfl
  exact ⟨h.1, h.2.1.trans (by rfl), h.2.2.1⟩

/-- options enabling history with bound n -/
def optsH (n : Nat) : Options :=
  { enableHistory := true, historySize := n, batchUpdates := false }

/-- a plugin- and middleware-free system with history bound n -/
def cfgH (n : Nat) : SysCfg := plainCfg (optsH n)

/-- drive reactive X through a sequence of set calls -/
def runSets (cfg : SysCfg) (vs : List Value) (st : SystemState) :
    SystemState :=
  vs.foldl (fun s w => (setBody cfg 3 s "X" w).1) st

/-- the record holding reactive X with value v after cnt commits -/
def soloR (v : Value) (cnt : Nat) : Reactive :=
  { id := "X", value := v, hasSet := true,
    meta := { type := "state", updateCount := cnt, status := .idle,
              error := none },
    dependencies := [], dependents := [] }

/-- the state shape while the single reactive X is driven through successive
commits: current value, update count, history log, event log -/
def soloX (v : Value) (cnt : Nat) (h : List Value) (evts : List Event) :
    SystemState :=
  { reactives := [("X", soloR v cnt)],
    history := [("X", h)], batchQueue := [], subscriptions := [],
    events := evts, nextId := 0 }

/-- the pure history fold corresponding to successive commits: each commit
pushes the value it replaces -/
def histRun (N : Nat) : List Value → Value → List Value → List Value
  | [], _, h => h
  | w :: ws, v, h => histRun N ws w (pushHistory N h v)

/-- one committed set against the solo state: the value is replaced, the
count bumped, the replaced value pushed into the history, and the commit
logged -/
theorem setBody_soloX3 (N : Nat) (v : Value) (cnt : Nat) (h : List Value)
    (evts : List Event) (w : Value) :
    setBody (cfgH N) 3 (soloX v cnt h evts) "X" w =
      (soloX w (cnt + 1) (pushHistory N h v) (evts ++ [.commitEv "X" w]),
       .ok ()) := by
  rfl

/-- a whole run of sets against the solo state folds the history purely -/
theorem runSets_soloX (N : Nat) :
    ∀ (vs : List Value) (v : Value) (cnt : Nat) (h : List Value)
      (evts : List Event),
      runSets (cfgH N) vs (soloX v cnt h evts) =
        soloX (vs.getLastD v) (cnt + vs.length) (histRun N vs v h)
          (evts ++ vs.map (fun w => Event.commitEv "X" w)) := by
  intro vs
  induction vs with
  | nil =>
    intro v cnt h evts
    simp [runSets, histRun]
  | cons w ws ih =>
    intro v cnt h evts
    have hchain : runSets (cfgH N) (w :: ws) (soloX v cnt h evts) =
        runSets (cfgH N) ws (soloX w (cnt + 1) (pushHistory N h v)
          (evts ++ [.commitEv "X" w])) := by
      simp only [runSets, List.foldl_cons, setBody_soloX3]
    rw [hchain, ih]
    have hcnt : cnt + 1 + ws.length = cnt + (ws.length + 1) := by omega
    simp [soloX, soloR, histRun, List.getLastD_cons, hcnt]
    cases ws with
    | nil => simp
    | cons b t =>
      obtain ⟨x, hx⟩ := Option.isSome_iff_exists.mp
        (List.getLast?_isSome.mpr (List.cons_ne_nil b t))
      simp [hx]

/-- the bounded push preserves the length bound -/
theorem pushHistory_length_le (N : Nat) (h : List Value) (v : Value)
    (hl : h.length ≤ N) : (pushHistory N h v).length ≤ N := by
  simp only [pushHistory]
  split
  · simp only [List.length_drop, List.length_append, List.length_singleton]
    omega
  · rename_i hc
    simp only [gt_iff_lt, not_lt] at hc
    exact hc

/-- dropping the head before appending shifts the drop index -/
theorem drop_one_append_drop {α : Type} (l P : List α) (hl : l ≠ [])
    (k : Nat) : (l.drop 1 ++ P).drop k = (l ++ P).drop (k + 1) := by
  cases l with
  | nil => exact absurd rfl hl
  | cons a t => simp [List.drop_succ_cons]

/-- the pure history fold keeps exactly the most recent N pushed values -/
theorem histRun_eq_drop (N : Nat) :
    ∀ (vs : List Value) (v : Value) (h : List Value), h.length ≤ N →
      histRun N vs v h =
        (h ++ (v :: vs).dropLast).drop
          ((h ++ (v :: vs).dropLast).length - N) := by
  intro vs
  induction vs with
  | nil =>
    intro v h hl
    simp only [histRun, List.dropLast_single, List.append_nil]
    rw [Nat.sub_eq_zero_of_le hl, List.drop_zero]
  | cons w ws ih =>
    intro v h hl
    have hpl := pushHistory_length_le N h v hl
    have hrec := ih w (pushHistory N h v) hpl
    rw [show histRun N (w :: ws) v h
          = histRun N ws w (pushHistory N h v) from rfl, hrec,
        List.dropLast_cons₂]
    by_cases hc : h.length + 1 > N
    · have hN : h.length = N := by omega
      have hpe : pushHistory N h v = (h ++ [v]).drop 1 := by
        simp only [pushHistory]
        rw [if_pos (by simp [List.length_append]; omega)]
      rw [hpe, drop_one_append_drop (h ++ [v]) _ (by simp)]
      rw [show h ++ v :: (w :: ws).dropLast
            = (h ++ [v]) ++ (w :: ws).dropLast by simp]
      congr 1
      simp [List.length_append, List.length_drop]
      omega
    · have hpe : pushHistory N h v = h ++ [v] := by
        simp only [pushHistory]
        rw [if_neg (by simp [List.length_append]; omega)]
      rw [hpe]
      rw [show (h ++ [v]) ++ (w :: ws).dropLast
            = h ++ v :: (w :: ws).dropLast by simp]

/-- the first set against the freshly created X -/
theorem setBody_init3 (N : Nat) (v0 w : Value) :
    setBody (cfgH N) 3
        ((create (cfgH N) emptyState (mkConf "X" "state" v0 [])).1) "X" w =
      (soloX w 1 (pushHistory N [] v0) [.commitEv "X" w], .ok ()) := by
  rfl

/-- C9: with history enabled and bound N greater than zero, after any
sequence of successful commits driving X through the values vs, the history
log holds exactly the most recent min(k, N) prior values — the value in place
before each commit, never the newly committed one — with the oldest evicted
first. -/
theorem C9_history_bounded_fifo (N : Nat) (hN : 0 < N) (v0 : Value)
    (vs : List Value) :
    historyOf (runSets (cfgH N) vs
        ((create (cfgH N) emptyState (mkConf "X" "state" v0 [])).1)) "X"
      = ((v0 :: vs).dropLast).drop ((v0 :: vs).dropLast.length - N) ∧
    (historyOf (runSets (cfgH N) vs
        ((create (cfgH N) emptyState
          (mkConf "X" "state" v0 [])).1)) "X").length
      = min vs.length N := by
  have hmain : historyOf (runSets (cfgH N) vs
      ((create (cfgH N) emptyState (mkConf "X" "state" v0 [])).1)) "X"
      = ((v0 :: vs).dropLast).drop ((v0 :: vs).dropLast.length - N) := by
    cases vs with
    | nil =>
      have h1 : historyOf (runSets (cfgH N) []
          ((create (cfgH N) emptyState (mkConf "X" "state" v0 [])).1)) "X"
          = [] := rfl
      rw [h1]
      simp
    | cons w ws =>
      have hchain : runSets (cfgH N) (w :: ws)
          ((create (cfgH N) emptyState (mkConf "X" "state" v0 [])).1) =
          runSets (cfgH N) ws
            (soloX w 1 (pushHistory N [] v0) [.commitEv "X" w]) := by
        simp only [runSets, List.foldl_cons, setBody_init3]
      have hpz : pushHistory N [] v0 = [v0] := by
        simp only [pushHistory]
        rw [if_neg (by simp; omega)]
        rfl
      rw [hchain, runSets_soloX, hpz]
      have hsolo : historyOf (soloX (ws.getLastD w) (1 + ws.length)
          (histRun N ws w [v0])
          ([.commitEv "X" w] ++ ws.map (fun u => Event.commitEv "X" u))) "X"
          = histRun N ws w [v0] := by
        rfl
      rw [hsolo, histRun_eq_drop N ws w [v0] (by simp; omega),
          List.dropLast_cons₂]
      simp
  refine ⟨hmain, ?_⟩
  rw [hmain]
  simp [List.length_drop, List.length_dropLast]
  omega

/-- witness for C9 with bound 3 and four successive commits: the log holds
the three most recent prior values -/
theorem C9_witness :
    0 < 3 ∧
    historyOf (runSets (cfgH 3) [11, 12, 13, 14]
        ((create (cfgH 3) emptyState (mkConf "X" "state" 10 [])).1)) "X"
      = [11, 12, 13] := by
  refine ⟨by decide, ?_⟩
  exact (C9_history_bounded_fifo 3 (by decide) 10 [11, 12, 13, 14]).1.trans
    (by rfl)

theorem beforeDestroyRuns_append (a b : List Event) :
    beforeDestroyRuns (a ++ b) =
      beforeDestroyRuns a ++ beforeDestroyRuns b := by
  simp [beforeDestroyRuns, List.filterMap_append]

/-- the beforeCreate fold touches only the event log, and adds no
beforeDestroy hook event -/
theorem runBeforeCreate_frame :
    ∀ (ps : List Plugin) (st : SystemState) (c : ReactiveConfig),
      (runBeforeCreate ps st c).1.reactives = st.reactives ∧
      (runBeforeCreate ps st c).1.history = st.history ∧
      (runBeforeCreate ps st c).1.subscriptions = st.subscriptions ∧
      beforeDestroyRuns (runBeforeCreate ps st c).1.events =
        beforeDestroyRuns st.events := by
  intro ps
  induction ps with
  | nil =>
    intro st c
    exact ⟨rfl, rfl, rfl, rfl⟩
  | cons p rest ih =>
    intro st c
    match hpe : p.beforeCreate with
    | none =>
      simp only [runBeforeCreate, hpe]
      exact ih st c
    | some f =>
      match hfc : f c with
      | .ok c2 =>
        have hrec := ih (logEv st (.hookRun p.name "beforeCreate")) c2
        simp only [runBeforeCreate, hpe, hfc]
        refine ⟨hrec.1, hrec.2.1, hrec.2.2.1, ?_⟩
        rw [hrec.2.2.2]
        show beforeDestroyRuns
          (st.events ++ [.hookRun p.name "beforeCreate"]) = _
        rw [beforeDestroyRuns_append]
        simp [show beforeDestroyRuns [Event.hookRun p.name "beforeCreate"]
          = [] from rfl]
      | .error e =>
        simp only [runBeforeCreate, hpe, hfc]
        refine ⟨rfl, rfl, rfl, ?_⟩
        show beforeDestroyRuns
          (st.events ++ [.hookRun p.name "beforeCreate"]) = _
        rw [beforeDestroyRuns_append]
        simp [show beforeDestroyRuns [Event.hookRun p.name "beforeCreate"]
          = [] from rfl]

/-- when every afterCreate hook succeeds, the fold succeeds, touches only the
event log, and adds no beforeDestroy hook event -/
theorem runAfterCreate_ok :
    ∀ (ps : List Plugin) (st : SystemState) (r : Reactive),
      (∀ p ∈ ps, ∀ f, p.afterCreate = some f → f r = .ok ()) →
      (runAfterCreate ps st r).2 = .ok () ∧
      (runAfterCreate ps st r).1.reactives = st.reactives ∧
      (runAfterCreate ps st r).1.history = st.history ∧
      (runAfterCreate ps st r).1.subscriptions = st.subscriptions ∧
      beforeDestroyRuns (runAfterCreate ps st r).1.events =
        beforeDestroyRuns st.events := by
  intro ps
  induction ps with
  | nil =>
    intro st r h
    exact ⟨rfl, rfl, rfl, rfl, rfl⟩
  | cons p rest ih =>
    intro st r h
    have hrest : ∀ q ∈ rest, ∀ f, q.afterCreate = some f → f r = .ok () :=
      fun q hq => h q (List.mem_cons_of_mem _ hq)
    match hpe : p.afterCreate with
    | none =>
      simp only [runAfterCreate, hpe]
      exact ih st r hrest
    | some f =>
      have hf := h p (List.mem_cons_self p rest) f hpe
      have hrec := ih (logEv st (.hookRun p.name "afterCreate")) r hrest
      simp only [runAfterCreate, hpe, hf]
      refine ⟨hrec.1, hrec.2.1, hrec.2.2.1, hrec.2.2.2.1, ?_⟩
      rw [hrec.2.2.2.2]
      show beforeDestroyRuns
        (st.events ++ [.hookRun p.name "afterCreate"]) = _
      rw [beforeDestroyRuns_append]
      simp [show beforeDestroyRuns [Event.hookRun p.name "afterCreate"]
        = [] from rfl]

/-- the node createReactive builds for an explicitly identified config -/
def builtR (pc : ReactiveConfig) (i : Id) : Reactive :=
  { id := i, value := pc.initialValue, hasSet := pc.type ≠ "readonly",
    meta := { type := pc.type, updateCount := 0, status := .idle,
              error := none },
    dependencies := pc.dependencies, dependents := [] }

theorem createReactive_explicit (st : SystemState) (pc : ReactiveConfig)
    (i : Id) (hid : pc.id = some i) (hne : i ≠ "") :
    createReactive st pc =
      (registerReactive st (builtR pc i), builtR pc i) := by
  simp [createReactive, hid, hne, builtR, registerReactive]

/-- C10: calling create with an id already present in the registry silently
replaces the old entry — the call succeeds, the registry maps the id to the
new node, no beforeDestroy hook runs, and the id's existing history log and
subscriber set are left in place. -/
theorem C10_create_replaces_silently
    (cfg : SysCfg) (st st1 : SystemState) (config pc : ReactiveConfig)
    (i : Id) (old : Reactive)
    (hbc : runBeforeCreate cfg.plugins st config = (st1, .ok pc))
    (hid : pc.id = some i) (hne : i ≠ "")
    (hold : alGet st.reactives i = some old)
    (hac : ∀ p ∈ cfg.plugins, ∀ f, p.afterCreate = some f →
             ∀ r, f r = .ok ()) :
    (create cfg st config).2 = .ok (builtR pc i) ∧
    alGet (create cfg st config).1.reactives i = some (builtR pc i) ∧
    (builtR pc i).meta.updateCount = 0 ∧
    (create cfg st config).1.history = st.history ∧
    (create cfg st config).1.subscriptions = st.subscriptions ∧
    beforeDestroyRuns (create cfg st config).1.events =
      beforeDestroyRuns st.events := by
  have hbf := runBeforeCreate_frame cfg.plugins st config
  rw [hbc] at hbf
  simp only at hbf
  have hcr := createReactive_explicit st1 pc i hid hne
  have hafter := runAfterCreate_ok cfg.plugins
    (registerReactive st1 (builtR pc i)) (builtR pc i)
    (fun p hp f hf => hac p hp f hf _)
  rcases hA : runAfterCreate cfg.plugins
      (registerReactive st1 (builtR pc i)) (builtR pc i) with ⟨st3, o⟩
  rw [hA] at hafter
  simp only at hafter
  have hcreate : create cfg st config = (st3, .ok (builtR pc i)) := by
    rw [create, hbc]
    dsimp only
    rw [hcr]
    dsimp only
    rw [hA]
    rcases hafter with ⟨h1, _⟩
    cases o with
    | ok u => rfl
    | error e => exact absurd h1 (by simp)
  rw [hcreate]
  have hreg : (registerReactive st1 (builtR pc i)).reactives
      = alSet st1.reactives i (builtR pc i) := rfl
  refine ⟨rfl, ?_, rfl, ?_, ?_, ?_⟩
  · rw [hafter.2.1, hreg, alGet_alSet_self]
  · rw [hafter.2.2.1]
    show st1.history = st.history
    exact hbf.2.1
  · rw [hafter.2.2.2.1]
    show st1.subscriptions = st.subscriptions
    exact hbf.2.2.1
  · rw [hafter.2.2.2.2]
    show beforeDestroyRuns st1.events = beforeDestroyRuns st.events
    exact hbf.2.2.2

/-- witness for C10: recreating id A, which stA already holds with value 0
and type state, silently replaces it with the new value-99 node while the
history and subscription tables are untouched -/
theorem C10_witness :
    (create cfg0 stA (mkConf "A" "other" 99 [])).2
        = .ok (builtR (mkConf "A" "other" 99 []) "A") ∧
    alGet (create cfg0 stA (mkConf "A" "other" 99 [])).1.reactives "A"
        = some (builtR (mkConf "A" "other" 99 []) "A") ∧
    (create cfg0 stA (mkConf "A" "other" 99 [])).1.history = stA.history ∧
    (create cfg0 stA (mkConf "A" "other" 99 [])).1.subscriptions
        = stA.subscriptions ∧
    beforeDestroyRuns (create cfg0 stA (mkConf "A" "other" 99 [])).1.events
        = beforeDestroyRuns stA.events := by
  have h := C10_create_replaces_silently cfg0 stA stA
    (mkConf "A" "other" 99 []) (mkConf "A" "other" 99 []) "A" rA
    rfl rfl (by decide) rfl
    (by intro p hp; exact absurd hp (by simp [cfg0, plainCfg]))
  exact ⟨h.1, h.2.1, h.2.2.2.1, h.2.2.2.2.1, h.2.2.2.2.2⟩

end SweetTooth
